import Mathlib

/-!
# Verification of the FeedbackPrioritizer batch analysis pipeline

Shallow embedding of `src/backend/gemini_agent.py` (the batch analysis
pipeline: `analyze_feedback_batch_async` and `process_feedbacks_async`),
with theorems settling the spec claims about it.

Modelling conventions:
* a Python feedback dict is a `FeedbackItem` record with the fields the
  pipeline reads (`id`, `feedback_text`, `source`); a missing key is `none`;
* the JSON value decoded from the remote response body is the inductive
  `Json`; Python dicts inside it are association lists with unique keys,
  insertion ordered, as Python dicts are;
* the network is modelled by an `Outcome` per batch: the distinguishable
  situations of the `try` block at lines 132-168 (transport error, non-200
  status, undecodable body, an unexpected exception, or a successfully
  decoded JSON value);
* each coroutine's return value is a `PyRet`: either a Python list or a
  non-list Python value (the merger at lines 200-204 distinguishes them
  with `isinstance(result, list)`).
-/

namespace FeedbackPrioritizer

/-- A JSON value, as produced by `json.loads` on the unwrapped response
body. Objects are insertion-ordered association lists with unique keys,
mirroring Python dicts. -/
inductive Json where
  | null : Json
  | bool (b : Bool) : Json
  | num (n : Int) : Json
  | str (s : String) : Json
  | arr (elems : List Json) : Json
  | obj (fields : List (String × Json)) : Json
deriving Repr

/-- One feedback record as the pipeline sees it: the keys of the Python
dict that `gemini_agent.py` reads or writes. `none` means the key is
absent from the dict. -/
structure FeedbackItem where
  id : Option Int
  feedback_text : String
  source : Option String
deriving DecidableEq, Repr

/-- The default source label, `'CSV'` in the source. -/
def defaultSource : String := "CSV"

/-- The fixed chunk size, `batch_size = 20` at line 184. -/
def batchSize : Nat := 20

/-- The fixed concurrency ceiling, `max_concurrent = 5` at line 185. -/
def maxConcurrent : Nat := 5

/-- Python dict assignment `d[k] = v` on an association list: replace the
value at an existing key in place, otherwise append the new key at the
end (Python dicts keep insertion order). -/
def jsetKey : List (String × Json) → String → Json → List (String × Json)
  | [], k, v => [(k, v)]
  | (k', v') :: rest, k, v =>
      if k' = k then (k, v) :: rest else (k', v') :: jsetKey rest k v

/-- Python dict lookup `d[k]` on a JSON value, `none` when absent or when
the value is not an object. -/
def jGet : Json → String → Option Json
  | .obj fields, k => (fields.find? (fun p => p.1 = k)).map (fun p => p.2)
  | _, _ => none

/-- Lines 150-151: overwrite the record's `feedback_text` and `source`
with the originating item's values (`batch_data[i]['feedback_text']` and
`batch_data[i].get('source', 'CSV')`). -/
def setProvenance (fields : List (String × Json)) (item : FeedbackItem) :
    List (String × Json) :=
  jsetKey (jsetKey fields "feedback_text" (.str item.feedback_text))
    "source" (.str (item.source.getD defaultSource))

/-- The distinguishable outcomes of one batch's network interaction, the
`try` block at lines 132-168:
* `transportError`: `aiohttp.ClientError` while posting or reading;
* `badStatus code`: the response arrived with `status != 200`;
* `decodeError`: the unwrapped body text is not valid JSON
  (`json.JSONDecodeError` from `json.loads`);
* `unexpectedError`: any other exception while handling the response;
* `ok v`: a 200 response whose unwrapped body decoded to the value `v`. -/
inductive Outcome where
  | transportError : Outcome
  | badStatus (code : Nat) : Outcome
  | decodeError : Outcome
  | unexpectedError : Outcome
  | ok (v : Json) : Outcome
deriving Repr

/-- The failure outcomes: everything except a decoded `ok` value. -/
def Outcome.isFailure : Outcome → Bool
  | .ok _ => false
  | _ => true

/-- What one batch coroutine returns: a Python list, or a non-list Python
value (possible because `json.loads` can produce any JSON value and the
loop at lines 148-151 returns it unchanged when it makes no assignment). -/
inductive PyRet where
  | list (xs : List Json) : PyRet
  | nonList (v : Json) : PyRet
deriving Repr

/-- The loop at lines 148-151 over the decoded array:
`for i, result in enumerate(results): if i < len(batch_data): result['feedback_text'] = ...; result['source'] = ...`.
Elements at positions below the batch length must be dicts (assignment on
anything else raises `TypeError`, modelled as `none`); elements at
positions at or past the batch length are left untouched. -/
def overwriteElems (batch : List FeedbackItem) : Nat → List Json → Option (List Json)
  | _, [] => some []
  | i, e :: rest =>
      if h : i < batch.length then
        match e with
        | .obj fields =>
            (overwriteElems batch (i + 1) rest).map
              (fun r => .obj (setProvenance fields (batch.get ⟨i, h⟩)) :: r)
        | _ => none
      else
        (overwriteElems batch (i + 1) rest).map (fun r => e :: r)

/-- Lines 145-158 after a successful decode: run the enumerate loop over
the decoded value `v` and return `results`. Python iteration semantics:
* an array iterates over its elements (a `TypeError` inside the loop is
  caught by the bare `except Exception` and yields `[]`);
* a dict iterates over its keys and a string over its characters: with a
  non-empty batch the first assignment to a string raises `TypeError`
  (caught, `[]`), while with zero iterations (empty dict, empty string)
  or an empty batch the loop completes and returns the value unchanged;
* numbers, booleans and null are not iterable: `enumerate` raises
  `TypeError` (caught, `[]`). -/
def pyOverwrite (batch : List FeedbackItem) : Json → PyRet
  | .arr elems =>
      match overwriteElems batch 0 elems with
      | some out => .list out
      | none => .list []
  | .obj [] => .nonList (.obj [])
  | .obj (f :: fs) =>
      if batch.isEmpty then .nonList (.obj (f :: fs)) else .list []
  | .str s =>
      if s.isEmpty ∨ batch.isEmpty then .nonList (.str s) else .list []
  | _ => .list []

/-- `analyze_feedback_batch_async` (lines 113-168) as a function of the
batch and its network outcome. Every failure path returns `[]` (lines
137, 162, 165, 168); a decoded value goes through the overwrite loop. -/
def analyzeBatchRet (batch : List FeedbackItem) : Outcome → PyRet
  | .transportError => .list []
  | .badStatus _ => .list []
  | .decodeError => .list []
  | .unexpectedError => .list []
  | .ok v => pyOverwrite batch v

/-- Python's `list.index`: the position of the first element equal to the
argument (the unreachable not-found case returns the length, where Python
would raise `ValueError`). -/
def pyIndex [DecidableEq α] : List α → α → Nat
  | [], _ => 0
  | y :: t, x => if y = x then 0 else pyIndex t x + 1

/-- The item after the source backfill of lines 179-180: `fb['source']`
set to the default when the key is absent, untouched otherwise. -/
def sourcedItem (fb : FeedbackItem) : FeedbackItem :=
  { fb with source := some (fb.source.getD defaultSource) }

/-- One iteration of the normalization loop at lines 178-182 for the item
at position `k`, including the in-place mutation order: `fb['source']` is
backfilled first, then `feedbacks.index(fb)` searches the list state in
which the current item already carries its source. -/
def normStep (l : List FeedbackItem) (k : Nat) : List FeedbackItem :=
  match l[k]? with
  | none => l
  | some fb =>
      let fb1 := sourcedItem fb
      let l1 := l.set k fb1
      if fb1.id.isSome then l1
      else l1.set k { fb1 with id := some ((pyIndex l1 fb1 : Int) + 1) }

/-- The whole normalization loop at lines 178-182: process positions
`0, 1, ...` in order, each step mutating the list state the next step
sees, exactly as the Python `for fb in feedbacks` loop does. -/
def normalize (l : List FeedbackItem) : List FeedbackItem :=
  (List.range l.length).foldl normStep l

/-- Fuel-driven chunking; fuel bounds the recursion depth. -/
def chunksOfAux (fuel n : Nat) (l : List α) : List (List α) :=
  match fuel, l with
  | 0, _ => []
  | _, [] => []
  | fuel + 1, x :: xs => (x :: xs).take n :: chunksOfAux fuel n ((x :: xs).drop n)

/-- The batching loop at lines 190-194:
`for i in range(0, len(feedbacks), batch_size): chunk = feedbacks[i:i+batch_size]`.
Slicing from successive offsets is the same as repeatedly taking and
dropping `n` elements; `l.length` steps of fuel always suffice. -/
def chunksOf (n : Nat) (l : List α) : List (List α) :=
  chunksOfAux l.length n l

/-- The fan-in loop at lines 199-204: `isinstance(result, list)` keeps
list returns and extends `all_results` with them; any non-list value
contributes nothing. -/
def mergeResults (rs : List PyRet) : List Json :=
  rs.flatMap fun r =>
    match r with
    | .list xs => xs
    | .nonList _ => []

/-- The records one batch contributes to `all_results`: its coroutine's
return value if that is a list, nothing otherwise. -/
def batchContribution (batch : List FeedbackItem) (o : Outcome) : List Json :=
  match analyzeBatchRet batch o with
  | .list xs => xs
  | .nonList _ => []

/-- The per-batch contributions of a run, in dispatch order: the batches
are the chunks of the normalized input, each paired with its outcome. -/
def contributions (l : List FeedbackItem) (os : List Outcome) :
    List (List Json) :=
  ((chunksOf batchSize (normalize l)).zip os).map
    (fun p => batchContribution p.1 p.2)

/-- `process_feedbacks_async` (lines 171-206) as a function of the input
and the per-batch network outcomes: normalize in place, chunk, run every
batch, gather, and merge the returns. -/
def processFeedbacks (l : List FeedbackItem) (os : List Outcome) : List Json :=
  mergeResults (((chunksOf batchSize (normalize l)).zip os).map
    (fun p => analyzeBatchRet p.1 p.2))

/-- Whether a JSON value is an array (Python: a list). -/
def Json.isArr : Json → Bool
  | .arr _ => true
  | _ => false

/-- The value the normalization loop leaves at position `k` when the item
there was `fb`: source backfilled with the default when absent, id
backfilled with the position-based `k + 1` when absent. The loop is
proved to compute exactly this (`normalize_eq_mapIdx`). -/
def normItem (k : Nat) (fb : FeedbackItem) : FeedbackItem :=
  { fb with
    source := some (fb.source.getD defaultSource)
    id := if fb.id.isSome then fb.id else some ((k : Int) + 1) }

/-- The chunk lengths produced by chunking a list of length `m` into
chunks of size `n` (fuel-driven like `chunksOfAux`). -/
def chunksLenAux (fuel n : Nat) (m : Nat) : List Nat :=
  match fuel, m with
  | 0, _ => []
  | _, 0 => []
  | fuel + 1, m + 1 => min n (m + 1) :: chunksLenAux fuel n (m + 1 - n)

/-!
## Concurrency model for the semaphore-gated dispatch

`process_feedbacks_async` creates one task per batch and a shared
`asyncio.Semaphore(max_concurrent)` (lines 185-194). Each task runs
`analyze_feedback_batch_async`, whose whole body is inside
`async with semaphore:` (line 115): the semaphore slot is held from before
`session.post` until after the response is processed (including the
pacing sleep). We model each task's progress through that critical
section and the interleavings asyncio can produce as a labelled
transition system on the list of task phases.
-/

/-- The phases one batch task moves through:
* `pending`: created, waiting at `async with semaphore` (line 115);
* `calling`: slot acquired, network call outstanding (line 133);
* `working`: response received, still holding the slot while decoding,
  overwriting and sleeping (lines 139-156);
* `done`: returned, slot released. -/
inductive Phase where
  | pending : Phase
  | calling : Phase
  | working : Phase
  | done : Phase
deriving DecidableEq, Repr

/-- Whether a task currently holds a semaphore slot. -/
def Phase.holdsSlot : Phase → Bool
  | .calling => true
  | .working => true
  | _ => false

/-- Whether a task currently has an outstanding network call. -/
def Phase.hasCall : Phase → Bool
  | .calling => true
  | _ => false

/-- The number of tasks holding a semaphore slot. -/
def slotsHeld (s : List Phase) : Nat :=
  s.countP (fun p => p.holdsSlot)

/-- The number of tasks with an outstanding network call. -/
def callsOutstanding (s : List Phase) : Nat :=
  s.countP (fun p => p.hasCall)

/-- One scheduler step. `acquire` fires only when fewer than
`maxConcurrent` slots are held: that is the semaphore's contract. The
other steps are a task receiving its response (keeping the slot) and a
task finishing (releasing the slot). -/
inductive SemStep : List Phase → List Phase → Prop where
  | acquire (s : List Phase) (i : Nat) :
      s[i]? = some .pending → slotsHeld s < maxConcurrent →
      SemStep s (s.set i .calling)
  | respond (s : List Phase) (i : Nat) :
      s[i]? = some .calling → SemStep s (s.set i .working)
  | finish (s : List Phase) (i : Nat) :
      s[i]? = some .working → SemStep s (s.set i .done)

/-- States reachable from a start state by scheduler steps. -/
inductive SemReach (init : List Phase) : List Phase → Prop where
  | refl : SemReach init init
  | step {s s' : List Phase} : SemReach init s → SemStep s s' →
      SemReach init s'

/-- The start state of a run on input `l`: one pending task per batch,
exactly as the task-creation loop at lines 190-194 makes them. -/
def initialTasks (l : List FeedbackItem) : List Phase :=
  List.replicate (chunksOf batchSize (normalize l)).length .pending

/-!
## List helpers
-/

theorem getElem?_append_len (a : List α) (x : α) (b : List α) (i : Nat)
    (h : i = a.length) : (a ++ x :: b)[i]? = some x := by
  subst h
  induction a with
  | nil => simp
  | cons y t ih => simpa using ih

theorem set_append_len (a : List α) (x y : α) (b : List α) (i : Nat)
    (h : i = a.length) : (a ++ x :: b).set i y = a ++ y :: b := by
  subst h
  induction a with
  | nil => simp
  | cons z t ih => simp [ih]

theorem pyIndex_append [DecidableEq α] (a : List α) (x : α) (b : List α)
    (i : Nat) (hi : i = a.length) (h : x ∉ a) :
    pyIndex (a ++ x :: b) x = i := by
  subst hi
  induction a with
  | nil => simp [pyIndex]
  | cons y t ih =>
      have hyx : y ≠ x := by
        intro he
        exact h (he ▸ List.mem_cons_self y t)
      have ht : x ∉ t := fun hm => h (List.mem_cons_of_mem y hm)
      simp [pyIndex, hyx, ih ht]

/-!
## The normalization loop computes the positional normal form

The in-place loop at lines 178-182 relies on `feedbacks.index(fb)` to
find the position of the current item. Because every earlier item has
already been given an `id` key by the time the loop reaches position
`k`, an id-less item can never be equal to an earlier one, so the lookup
always lands on the item's own position, even when the input holds items
with identical field values.
-/

theorem normStep_of_ge (l : List FeedbackItem) (k : Nat) (h : l.length ≤ k) :
    normStep l k = l := by
  unfold normStep
  rw [List.getElem?_eq_none h]

theorem sourcedItem_id (fb : FeedbackItem) : (sourcedItem fb).id = fb.id := rfl

theorem normStep_id_some {l : List FeedbackItem} {k : Nat} {fb : FeedbackItem}
    (h : l[k]? = some fb) (hid : fb.id.isSome = true) :
    normStep l k = l.set k (sourcedItem fb) := by
  unfold normStep
  rw [h]
  simp only [sourcedItem_id, hid, if_true]

theorem normStep_id_none {l : List FeedbackItem} {k : Nat} {fb : FeedbackItem}
    (h : l[k]? = some fb) (hid : fb.id = none) :
    normStep l k = (l.set k (sourcedItem fb)).set k
      { sourcedItem fb with
        id := some ((pyIndex (l.set k (sourcedItem fb)) (sourcedItem fb) : Int) + 1) } := by
  unfold normStep
  rw [h]
  simp only [sourcedItem_id, hid, Option.isSome_none, Bool.false_eq_true, if_false]

theorem normItem_id_isSome (k : Nat) (fb : FeedbackItem) :
    (normItem k fb).id.isSome = true := by
  cases h : fb.id <;> simp [normItem, h]

theorem normItem_id_some (k : Nat) {fb : FeedbackItem}
    (hid : fb.id.isSome = true) : normItem k fb = sourcedItem fb := by
  cases fb with
  | mk i t s => simp [normItem, sourcedItem, hid]

theorem normItem_id_none (k : Nat) {fb : FeedbackItem} (hid : fb.id = none) :
    normItem k fb = { sourcedItem fb with id := some ((k : Int) + 1) } := by
  cases fb with
  | mk i t s =>
      subst hid
      simp [normItem, sourcedItem]

theorem normalize_eq_mapIdx (l : List FeedbackItem) :
    normalize l = List.mapIdx normItem l := by
  suffices h : ∀ m, (List.range m).foldl normStep l =
      List.mapIdx normItem (l.take m) ++ l.drop m by
    have hl := h l.length
    simpa [normalize] using hl
  intro m
  induction m with
  | zero => simp
  | succ m ih =>
      rw [List.range_succ, List.foldl_append, List.foldl_cons, List.foldl_nil, ih]
      by_cases hm : m < l.length
      · have hAlen : (List.mapIdx normItem (l.take m)).length = m := by
          simp [Nat.min_eq_left (Nat.le_of_lt hm)]
        have hdrop : l.drop m = l[m] :: l.drop (m + 1) :=
          List.drop_eq_getElem_cons hm
        have htake : l.take (m + 1) = l.take m ++ [l[m]] := by
          rw [← List.take_concat_get l m hm, List.concat_eq_append]
        have hmapTake : List.mapIdx normItem (l.take (m + 1)) =
            List.mapIdx normItem (l.take m) ++ [normItem m l[m]] := by
          rw [htake, List.mapIdx_append]
          simp [Nat.min_eq_left (Nat.le_of_lt hm)]
        rw [hdrop, hmapTake]
        have hget : (List.mapIdx normItem (l.take m) ++ l[m] :: l.drop (m + 1))[m]? =
            some l[m] :=
          getElem?_append_len _ _ _ _ hAlen.symm
        cases hid : l[m].id with
        | some v =>
            rw [normStep_id_some hget (by simp [hid]),
              set_append_len _ _ _ _ _ hAlen.symm,
              normItem_id_some m (by simp [hid])]
            simp
        | none =>
            have hnotmem : sourcedItem l[m] ∉ List.mapIdx normItem (l.take m) := by
              intro hmem
              obtain ⟨j, hj, hji⟩ := List.mem_iff_getElem.mp hmem
              have hsome : (List.mapIdx normItem (l.take m))[j].id.isSome = true := by
                rw [List.getElem_mapIdx]
                exact normItem_id_isSome _ _
              rw [hji, sourcedItem_id, hid] at hsome
              simp at hsome
            rw [normStep_id_none hget hid,
              set_append_len _ _ _ _ _ hAlen.symm,
              pyIndex_append _ _ _ _ hAlen.symm hnotmem,
              set_append_len _ _ _ _ _ hAlen.symm,
              normItem_id_none m hid]
            simp
      · push_neg at hm
        have htake : l.take m = l := List.take_of_length_le hm
        have htake1 : l.take (m + 1) = l := List.take_of_length_le (Nat.le_succ_of_le hm)
        have hdropm : l.drop m = [] := List.drop_eq_nil_of_le hm
        have hdrop1 : l.drop (m + 1) = [] := List.drop_eq_nil_of_le (Nat.le_succ_of_le hm)
        rw [htake, htake1, hdropm, hdrop1]
        simp only [List.append_nil]
        exact normStep_of_ge _ _ (by simpa using hm)

theorem normalize_length (l : List FeedbackItem) :
    (normalize l).length = l.length := by
  rw [normalize_eq_mapIdx]
  exact List.length_mapIdx

theorem normalize_getElem? (l : List FeedbackItem) (k : Nat) :
    (normalize l)[k]? = (l[k]?).map (normItem k) := by
  rw [normalize_eq_mapIdx]
  by_cases hk : k < l.length
  · rw [List.getElem?_eq_getElem (by simpa using hk),
      List.getElem?_eq_getElem hk, List.getElem_mapIdx]
    rfl
  · push_neg at hk
    rw [List.getElem?_eq_none (by simpa using hk), List.getElem?_eq_none hk]
    rfl

/-!
## Chunking lemmas
-/

theorem chunksOfAux_congr {n : Nat} (hn : 0 < n) :
    ∀ (f1 f2 : Nat) (l : List α), l.length ≤ f1 → l.length ≤ f2 →
      chunksOfAux f1 n l = chunksOfAux f2 n l := by
  intro f1
  induction f1 with
  | zero =>
      intro f2 l h1 h2
      have hl : l = [] := List.eq_nil_of_length_eq_zero (Nat.le_zero.mp h1)
      subst hl
      cases f2 <;> rfl
  | succ f1 ih =>
      intro f2 l h1 h2
      cases l with
      | nil => cases f2 <;> rfl
      | cons x xs =>
          cases f2 with
          | zero => simp at h2
          | succ f2 =>
              simp only [chunksOfAux]
              have hd1 : ((x :: xs).drop n).length ≤ f1 := by
                simp only [List.length_drop, List.length_cons]
                simp only [List.length_cons] at h1
                omega
              have hd2 : ((x :: xs).drop n).length ≤ f2 := by
                simp only [List.length_drop, List.length_cons]
                simp only [List.length_cons] at h2
                omega
              rw [ih f2 _ hd1 hd2]

theorem chunksOf_nil (n : Nat) : chunksOf n ([] : List α) = [] := rfl

theorem chunksOf_cons {n : Nat} (hn : 0 < n) (l : List α) (hl : l ≠ []) :
    chunksOf n l = l.take n :: chunksOf n (l.drop n) := by
  cases l with
  | nil => exact absurd rfl hl
  | cons x xs =>
      show chunksOfAux (x :: xs).length n (x :: xs) = _
      simp only [List.length_cons, chunksOfAux]
      rw [chunksOfAux_congr hn xs.length ((x :: xs).drop n).length _
        (by simp only [List.length_drop, List.length_cons]; omega) le_rfl]
      rfl

theorem chunksOf_flatten {n : Nat} (hn : 0 < n) (l : List α) :
    (chunksOf n l).flatten = l := by
  suffices h : ∀ (m : Nat) (l : List α), l.length ≤ m →
      (chunksOf n l).flatten = l from h l.length l le_rfl
  intro m
  induction m with
  | zero =>
      intro l h
      have hl : l = [] := List.eq_nil_of_length_eq_zero (Nat.le_zero.mp h)
      subst hl
      rfl
  | succ m ih =>
      intro l h
      rcases eq_or_ne l [] with hl | hl
      · subst hl; rfl
      · rw [chunksOf_cons hn l hl, List.flatten_cons,
          ih (l.drop n) (by
            have h1 : 0 < l.length := List.length_pos.mpr hl
            simp only [List.length_drop]
            omega),
          List.take_append_drop]

theorem chunksOf_sizes {n : Nat} (hn : 0 < n) (l : List α) :
    ∀ (i : Nat) (c : List α), (chunksOf n l)[i]? = some c →
      c.length ≤ n ∧ (i + 1 < (chunksOf n l).length → c.length = n) := by
  suffices h : ∀ (m : Nat) (l : List α), l.length ≤ m →
      ∀ (i : Nat) (c : List α), (chunksOf n l)[i]? = some c →
        c.length ≤ n ∧ (i + 1 < (chunksOf n l).length → c.length = n) from
    fun i c => h l.length l le_rfl i c
  intro m
  induction m with
  | zero =>
      intro l h i c hc
      have hl : l = [] := List.eq_nil_of_length_eq_zero (Nat.le_zero.mp h)
      subst hl
      simp [chunksOf_nil] at hc
  | succ m ih =>
      intro l h i c hc
      rcases eq_or_ne l [] with hl | hl
      · subst hl; simp [chunksOf_nil] at hc
      · have hdroplen : (l.drop n).length ≤ m := by
          have h1 : 0 < l.length := List.length_pos.mpr hl
          simp only [List.length_drop]
          omega
        rw [chunksOf_cons hn l hl] at hc
        cases i with
        | zero =>
            simp only [List.getElem?_cons_zero, Option.some.injEq] at hc
            subst hc
            constructor
            · simp
            · intro hlen
              rw [chunksOf_cons hn l hl, List.length_cons] at hlen
              have hne : l.drop n ≠ [] := by
                intro he
                rw [he, chunksOf_nil] at hlen
                simp at hlen
              have : n < l.length := by
                have := List.length_pos.mpr hne
                simp only [List.length_drop] at this
                omega
              simp only [List.length_take]
              omega
        | succ i =>
            simp only [List.getElem?_cons_succ] at hc
            have := ih (l.drop n) hdroplen i c hc
            refine ⟨this.1, fun hlen => this.2 ?_⟩
            rw [chunksOf_cons hn l hl, List.length_cons] at hlen
            omega

theorem chunksOf_map_length_45 (l : List α) (h : l.length = 45) :
    (chunksOf batchSize l).map List.length = [20, 20, 5] := by
  have hn : 0 < batchSize := by decide
  have h1 : l ≠ [] := by
    intro he
    rw [he] at h
    simp at h
  have h2 : l.drop batchSize ≠ [] := by
    have : (l.drop batchSize).length = 25 := by
      simp [List.length_drop, h, batchSize]
    intro he
    rw [he] at this
    simp at this
  have h3 : (l.drop batchSize).drop batchSize ≠ [] := by
    have : ((l.drop batchSize).drop batchSize).length = 5 := by
      simp [List.length_drop, h, batchSize]
    intro he
    rw [he] at this
    simp at this
  have h4 : ((l.drop batchSize).drop batchSize).drop batchSize = [] := by
    apply List.eq_nil_of_length_eq_zero
    simp [List.length_drop, h, batchSize]
  rw [chunksOf_cons hn l h1, chunksOf_cons hn _ h2, chunksOf_cons hn _ h3, h4,
    chunksOf_nil]
  simp [List.length_take, List.length_drop, h, batchSize]

/-!
## Merger lemmas
-/

theorem mergeResults_map (ps : List (List FeedbackItem × Outcome)) :
    mergeResults (ps.map fun p => analyzeBatchRet p.1 p.2) =
      (ps.map fun p => batchContribution p.1 p.2).flatten := by
  induction ps with
  | nil => rfl
  | cons p pt ih =>
      unfold mergeResults at ih ⊢
      rw [List.map_cons, List.flatMap_cons, List.map_cons, List.flatten_cons, ih]
      rfl

theorem processFeedbacks_eq_flatten (l : List FeedbackItem) (os : List Outcome) :
    processFeedbacks l os = (contributions l os).flatten := by
  unfold processFeedbacks contributions
  exact mergeResults_map _

theorem batchContribution_failure (b : List FeedbackItem) (o : Outcome)
    (h : o.isFailure = true) : batchContribution b o = [] := by
  cases o <;> simp_all [batchContribution, analyzeBatchRet, Outcome.isFailure]

theorem batchContribution_ok_nonArr (b : List FeedbackItem) (v : Json)
    (h : v.isArr = false) : batchContribution b (.ok v) = [] := by
  cases v with
  | arr es => simp [Json.isArr] at h
  | obj fs =>
      cases fs with
      | nil => rfl
      | cons f ft =>
          by_cases hb : b.isEmpty = true <;>
            simp [batchContribution, analyzeBatchRet, pyOverwrite, hb]
  | str s =>
      by_cases hs : s.isEmpty = true
      · simp [batchContribution, analyzeBatchRet, pyOverwrite, hs]
      · by_cases hb : b.isEmpty = true
        · simp [batchContribution, analyzeBatchRet, pyOverwrite, hs, hb]
        · simp [batchContribution, analyzeBatchRet, pyOverwrite, hs, hb]
  | null => rfl
  | bool b' => rfl
  | num n' => rfl

/-!
## The overwrite loop: positional pairing
-/

theorem overwriteElems_length (b : List FeedbackItem) :
    ∀ (elems : List Json) (k : Nat) (out : List Json),
      overwriteElems b k elems = some out → out.length = elems.length := by
  intro elems
  induction elems with
  | nil =>
      intro k out h
      simp only [overwriteElems, Option.some.injEq] at h
      subst h
      rfl
  | cons e rest ih =>
      intro k out h
      simp only [overwriteElems] at h
      by_cases hk : k < b.length
      · rw [dif_pos hk] at h
        cases e with
        | obj fields =>
            rw [Option.map_eq_some'] at h
            obtain ⟨r, hr, hout⟩ := h
            subst hout
            simp [ih _ _ hr]
        | null => simp at h
        | bool b2 => simp at h
        | num n2 => simp at h
        | str s2 => simp at h
        | arr es2 => simp at h
      · rw [dif_neg hk] at h
        rw [Option.map_eq_some'] at h
        obtain ⟨r, hr, hout⟩ := h
        subst hout
        simp [ih _ _ hr]

theorem overwriteElems_getElem? (b : List FeedbackItem) :
    ∀ (elems : List Json) (k : Nat) (out : List Json),
      overwriteElems b k elems = some out →
      ∀ (i : Nat), i < elems.length →
        (∀ fb, b[k + i]? = some fb → ∃ fields,
          elems[i]? = some (.obj fields) ∧
          out[i]? = some (.obj (setProvenance fields fb))) ∧
        (b[k + i]? = none → out[i]? = elems[i]?) := by
  intro elems
  induction elems with
  | nil => intro k out h i hi; simp at hi
  | cons e rest ih =>
      intro k out h i hi
      simp only [overwriteElems] at h
      by_cases hk : k < b.length
      · rw [dif_pos hk] at h
        cases e with
        | null => simp at h
        | bool b2 => simp at h
        | num n2 => simp at h
        | str s2 => simp at h
        | arr es2 => simp at h
        | obj fields =>
            rw [Option.map_eq_some'] at h
            obtain ⟨r, hr, hout⟩ := h
            subst hout
            cases i with
            | zero =>
                constructor
                · intro fb hfb
                  have hfb' : b[k]? = some fb := by simpa using hfb
                  have hbk : b[k] = fb := by
                    rw [List.getElem?_eq_getElem hk] at hfb'
                    exact Option.some.inj hfb'
                  exact ⟨fields, by simp, by simp [hbk]⟩
                · intro hnone
                  rw [Nat.add_zero, List.getElem?_eq_getElem hk] at hnone
                  exact absurd hnone (by simp)
            | succ i =>
                have hi' : i < rest.length := by simpa using hi
                have hk1 : k + 1 + i = k + (i + 1) := by omega
                have hrec := ih (k + 1) r hr i hi'
                rw [hk1] at hrec
                constructor
                · intro fb hfb
                  obtain ⟨fs, he, ho⟩ := hrec.1 fb hfb
                  exact ⟨fs, by simpa using he, by simpa using ho⟩
                · intro hnone
                  have hq := hrec.2 hnone
                  simpa using hq
      · rw [dif_neg hk] at h
        rw [Option.map_eq_some'] at h
        obtain ⟨r, hr, hout⟩ := h
        subst hout
        cases i with
        | zero =>
            constructor
            · intro fb hfb
              rw [Nat.add_zero, List.getElem?_eq_none (Nat.le_of_not_lt hk)] at hfb
              exact absurd hfb (by simp)
            · intro hnone
              simp
        | succ i =>
            have hi' : i < rest.length := by simpa using hi
            have hk1 : k + 1 + i = k + (i + 1) := by omega
            have hrec := ih (k + 1) r hr i hi'
            rw [hk1] at hrec
            constructor
            · intro fb hfb
              obtain ⟨fs, he, ho⟩ := hrec.1 fb hfb
              exact ⟨fs, by simpa using he, by simpa using ho⟩
            · intro hnone
              have hq := hrec.2 hnone
              simpa using hq

/-!
## Association-list lemmas for the provenance overwrite
-/

theorem find?_jsetKey_self (kvs : List (String × Json)) (k : String) (v : Json) :
    (jsetKey kvs k v).find? (fun p => p.1 = k) = some (k, v) := by
  induction kvs with
  | nil => simp [jsetKey]
  | cons p pt ih =>
      by_cases h : p.1 = k
      · simp [jsetKey, h]
      · simp [jsetKey, h, ih]

theorem find?_jsetKey_ne (kvs : List (String × Json)) (k k' : String) (v : Json)
    (h : k' ≠ k) :
    (jsetKey kvs k v).find? (fun p => p.1 = k') = kvs.find? (fun p => p.1 = k') := by
  have hkk : ¬ k = k' := fun he => h he.symm
  induction kvs with
  | nil => simp [jsetKey, hkk]
  | cons p pt ih =>
      obtain ⟨p1, p2⟩ := p
      by_cases hp : p1 = k
      · have hp' : ¬ p1 = k' := by rw [hp]; exact hkk
        simp [jsetKey, hp, hp', hkk]
      · by_cases hp' : p1 = k'
        · simp [jsetKey, hp, hp', h]
        · simp [jsetKey, hp, hp', ih]

theorem jGet_setProvenance_text (fields : List (String × Json)) (fb : FeedbackItem) :
    jGet (.obj (setProvenance fields fb)) "feedback_text" =
      some (.str fb.feedback_text) := by
  show ((setProvenance fields fb).find? (fun p => p.1 = "feedback_text")).map
    (fun p => p.2) = some (.str fb.feedback_text)
  unfold setProvenance
  rw [find?_jsetKey_ne _ _ _ _ (by decide), find?_jsetKey_self]
  rfl

theorem jGet_setProvenance_source (fields : List (String × Json)) (fb : FeedbackItem) :
    jGet (.obj (setProvenance fields fb)) "source" =
      some (.str (fb.source.getD defaultSource)) := by
  show ((setProvenance fields fb).find? (fun p => p.1 = "source")).map
    (fun p => p.2) = some (.str (fb.source.getD defaultSource))
  unfold setProvenance
  rw [find?_jsetKey_self]
  rfl

/-!
## Per-batch length bound and failure isolation
-/

theorem batchContribution_length_le (b : List FeedbackItem) (o : Outcome)
    (h : ∀ elems, o = Outcome.ok (.arr elems) → elems.length ≤ b.length) :
    (batchContribution b o).length ≤ b.length := by
  cases o with
  | transportError => simp [batchContribution, analyzeBatchRet]
  | badStatus c => simp [batchContribution, analyzeBatchRet]
  | decodeError => simp [batchContribution, analyzeBatchRet]
  | unexpectedError => simp [batchContribution, analyzeBatchRet]
  | ok v =>
      cases v with
      | arr elems =>
          have hlen := h elems rfl
          simp only [batchContribution, analyzeBatchRet, pyOverwrite]
          cases hov : overwriteElems b 0 elems with
          | some out =>
              have hl := overwriteElems_length b elems 0 out hov
              simp only [hov]
              rw [hl]
              exact hlen
          | none => simp [hov]
      | null => simp [batchContribution_ok_nonArr b Json.null rfl]
      | bool b2 => simp [batchContribution_ok_nonArr b (Json.bool b2) rfl]
      | num n2 => simp [batchContribution_ok_nonArr b (Json.num n2) rfl]
      | str s2 => simp [batchContribution_ok_nonArr b (Json.str s2) rfl]
      | obj fs => simp [batchContribution_ok_nonArr b (Json.obj fs) rfl]

theorem contributions_length_le :
    ∀ (ch : List (List FeedbackItem)) (os : List Outcome),
      (∀ p ∈ ch.zip os, ∀ elems, p.2 = Outcome.ok (.arr elems) →
        elems.length ≤ p.1.length) →
      (((ch.zip os).map fun p => batchContribution p.1 p.2).flatten).length ≤
        ch.flatten.length := by
  intro ch
  induction ch with
  | nil => intro os h; simp
  | cons c ct ih =>
      intro os h
      cases os with
      | nil => simp
      | cons o ot =>
          simp only [List.zip_cons_cons, List.map_cons, List.flatten_cons,
            List.length_append]
          have h1 : (batchContribution c o).length ≤ c.length :=
            batchContribution_length_le c o
              (fun elems he => h (c, o) (by simp) elems he)
          have h2 := ih ot (fun p hp elems he => h p (by simp [hp]) elems he)
          exact Nat.add_le_add h1 h2

theorem contributions_set_failure :
    ∀ (ch : List (List FeedbackItem)) (os : List Outcome) (j : Nat) (o : Outcome),
      o.isFailure = true →
      ((ch.zip (os.set j o)).map fun p => batchContribution p.1 p.2) =
        ((ch.zip os).map fun p => batchContribution p.1 p.2).set j [] := by
  intro ch
  induction ch with
  | nil => intro os j o ho; simp
  | cons c ct ih =>
      intro os j o ho
      cases os with
      | nil => simp
      | cons o0 ot =>
          cases j with
          | zero =>
              simp only [List.set_cons_zero, List.zip_cons_cons, List.map_cons]
              rw [batchContribution_failure c o ho]
          | succ j =>
              simp only [List.set_cons_succ, List.zip_cons_cons, List.map_cons]
              rw [ih ot j o ho]

/-!
## Semaphore counting
-/

theorem countP_set_add (p : α → Bool) :
    ∀ (l : List α) (i : Nat) (a b : α), l[i]? = some a →
      (l.set i b).countP p + (if p a then 1 else 0) =
        l.countP p + (if p b then 1 else 0) := by
  intro l
  induction l with
  | nil => intro i a b h; simp at h
  | cons x t ih =>
      intro i a b h
      cases i with
      | zero =>
          have hx : x = a := by simpa using h
          rw [← hx]
          by_cases px : p x <;> by_cases pb : p b <;>
            simp [List.countP_cons, px, pb]
      | succ i =>
          have h' : t[i]? = some a := by simpa using h
          simp only [List.set_cons_succ, List.countP_cons]
          have hq := ih i a b h'
          omega

theorem slotsHeld_replicate_pending (n : Nat) :
    slotsHeld (List.replicate n .pending) = 0 := by
  unfold slotsHeld
  induction n with
  | zero => rfl
  | succ n ih => rw [List.replicate_succ, List.countP_cons]; simp [Phase.holdsSlot, ih]

theorem slotsHeld_le_of_reach (init : List Phase) (hinit : slotsHeld init = 0) :
    ∀ s, SemReach init s → slotsHeld s ≤ maxConcurrent := by
  intro s h
  induction h with
  | refl => rw [hinit]; exact Nat.zero_le _
  | step hr hs ih =>
      cases hs with
      | acquire i hp hlt =>
          have hc := countP_set_add (fun p => p.holdsSlot) _ i .pending .calling hp
          simp [slotsHeld, Phase.holdsSlot] at hc hlt ih ⊢
          omega
      | respond i hp =>
          have hc := countP_set_add (fun p => p.holdsSlot) _ i .calling .working hp
          simp [slotsHeld, Phase.holdsSlot] at hc ih ⊢
          omega
      | finish i hp =>
          have hc := countP_set_add (fun p => p.holdsSlot) _ i .working .done hp
          simp [slotsHeld, Phase.holdsSlot] at hc ih ⊢
          omega

theorem callsOutstanding_le_slotsHeld (s : List Phase) :
    callsOutstanding s ≤ slotsHeld s := by
  unfold callsOutstanding slotsHeld
  refine List.countP_mono_left (fun a _ h => ?_)
  cases a <;> simp [Phase.hasCall, Phase.holdsSlot] at h ⊢

/-!
## Claim theorems
-/

/-- Claim C1 is false on the code: the overwrite loop never truncates the
decoded array, so a batch of one item whose response decodes to a
two-element array makes `process_feedbacks_async` return two records —
more results than submitted items. -/
theorem claim1_counterexample :
    ¬ ((processFeedbacks [⟨some 1, "a", some "S"⟩]
        [.ok (.arr [.obj [], .obj []])]).length ≤
      ([⟨some 1, "a", some "S"⟩] : List FeedbackItem).length) := by
  decide

/-- Claim C1 amended: provided every successfully decoded response array
has at most as many records as its batch has items, the flat result list
is no longer than the submitted input. -/
theorem claim1_amended (l : List FeedbackItem) (os : List Outcome)
    (h : ∀ p ∈ (chunksOf batchSize (normalize l)).zip os, ∀ elems,
      p.2 = Outcome.ok (.arr elems) → elems.length ≤ p.1.length) :
    (processFeedbacks l os).length ≤ l.length := by
  rw [processFeedbacks_eq_flatten]
  calc ((contributions l os).flatten).length ≤
      ((chunksOf batchSize (normalize l)).flatten).length :=
        contributions_length_le _ os h
    _ = (normalize l).length := by
        rw [chunksOf_flatten (show 0 < batchSize by decide)]
    _ = l.length := normalize_length l

/-- Witness for the amended C1 at a concrete input. -/
theorem claim1_witness :
    (processFeedbacks [⟨some 1, "a", some "S"⟩]
        [.ok (.arr [.obj []])]).length ≤
      ([⟨some 1, "a", some "S"⟩] : List FeedbackItem).length :=
  claim1_amended _ _ (by
    have hz : (chunksOf batchSize (normalize [⟨some 1, "a", some "S"⟩])).zip
        [Outcome.ok (.arr [.obj []])] =
        [([⟨some 1, "a", some "S"⟩], Outcome.ok (.arr [.obj []]))] := rfl
    rw [hz]
    intro p hp elems he
    rw [List.mem_singleton] at hp
    subst hp
    injection he with h1
    injection h1 with h2
    rw [← h2]
    decide)

/-- Claim C2 is false on the code: a record beyond the batch length keeps
the remote's echoed `feedback_text`/`source` — here the second record of
a one-item batch still says "evil", a text no input item has. -/
theorem claim2_counterexample :
    (processFeedbacks [⟨some 1, "a", some "S"⟩]
        [.ok (.arr [.obj [], .obj [("feedback_text", .str "evil"),
          ("source", .str "H")]])])[1]?.bind
      (fun r => jGet r "feedback_text") = some (.str "evil")
    ∧ ∀ fb ∈ ([⟨some 1, "a", some "S"⟩] : List FeedbackItem),
        fb.feedback_text ≠ "evil" :=
  ⟨rfl, by decide⟩

/-- Claim C2 amended: a record at position `i` below the batch length has
its provenance fields overwritten with the values of the batch item at
the same position `i` (records at or past the batch length keep the
remote's echoed values, as the counterexample shows). -/
theorem claim2_amended (batch : List FeedbackItem) (elems out : List Json)
    (i : Nat) (fb : FeedbackItem)
    (hov : overwriteElems batch 0 elems = some out)
    (hi : i < elems.length) (hfb : batch[i]? = some fb) :
    batchContribution batch (.ok (.arr elems)) = out ∧
    ∃ r, out[i]? = some r ∧
      jGet r "feedback_text" = some (.str fb.feedback_text) ∧
      jGet r "source" = some (.str (fb.source.getD defaultSource)) := by
  constructor
  · simp [batchContribution, analyzeBatchRet, pyOverwrite, hov]
  · have hm := (overwriteElems_getElem? batch elems 0 out hov i hi).1 fb
      (by simpa using hfb)
    obtain ⟨fields, he, ho⟩ := hm
    exact ⟨_, ho, jGet_setProvenance_text fields fb,
      jGet_setProvenance_source fields fb⟩

/-- Witness for the amended C2 at a concrete input. -/
theorem claim2_witness :
    batchContribution [⟨some 1, "a", some "S"⟩] (.ok (.arr [.obj []])) =
      [.obj [("feedback_text", .str "a"), ("source", .str "S")]] ∧
    ∃ r, ([.obj [("feedback_text", .str "a"), ("source", .str "S")]] :
        List Json)[0]? = some r ∧
      jGet r "feedback_text" = some (.str "a") ∧
      jGet r "source" = some (.str "S") :=
  claim2_amended _ _ _ 0 ⟨some 1, "a", some "S"⟩ rfl (by decide) rfl

/-- Claim C3 is false on the code: the merger pairs records with items by
position, not by id. With items id 1 (text "a") and id 2 (text "b") and
the response listing record id 2 first, the returned record carrying id 2
holds text "a", while the item with id 2 has text "b". -/
theorem claim3_counterexample :
    (processFeedbacks
        [⟨some 1, "a", some "S"⟩, ⟨some 2, "b", some "S"⟩]
        [.ok (.arr [.obj [("id", .num 2)], .obj [("id", .num 1)]])])[0]?.bind
      (fun r => jGet r "id") = some (.num 2)
    ∧ (processFeedbacks
        [⟨some 1, "a", some "S"⟩, ⟨some 2, "b", some "S"⟩]
        [.ok (.arr [.obj [("id", .num 2)], .obj [("id", .num 1)]])])[0]?.bind
      (fun r => jGet r "feedback_text") = some (.str "a")
    ∧ (∀ fb ∈ ([⟨some 1, "a", some "S"⟩, ⟨some 2, "b", some "S"⟩] :
        List FeedbackItem), fb.id = some 2 → fb.feedback_text = "b")
    ∧ ("a" : String) ≠ "b" :=
  ⟨rfl, rfl, by decide, by decide⟩

/-- Claim C3 amended: the merger pairs each decoded record with the batch
item at the same position, ignoring the record's id field; a record at a
position with no batch item is matched to no item and passed through
unchanged, and the loop always produces a value (no crash). -/
theorem claim3_amended (batch : List FeedbackItem) (elems out : List Json)
    (hov : overwriteElems batch 0 elems = some out) :
    out.length = elems.length ∧
    (∀ i fb, i < elems.length → batch[i]? = some fb →
      ∃ fields, elems[i]? = some (.obj fields) ∧
        out[i]? = some (.obj (setProvenance fields fb))) ∧
    (∀ i, i < elems.length → batch[i]? = none → out[i]? = elems[i]?) := by
  refine ⟨overwriteElems_length batch elems 0 out hov, ?_, ?_⟩
  · intro i fb hi hfb
    exact (overwriteElems_getElem? batch elems 0 out hov i hi).1 fb
      (by simpa using hfb)
  · intro i hi hnone
    exact (overwriteElems_getElem? batch elems 0 out hov i hi).2
      (by simpa using hnone)

/-- Witness for the amended C3 at a concrete input. -/
theorem claim3_witness :
    (([.obj [("feedback_text", .str "a"), ("source", .str "S")], .str "x"] :
        List Json).length = ([.obj [], .str "x"] : List Json).length) ∧
    (∀ i fb, i < ([.obj [], .str "x"] : List Json).length →
      ([⟨some 1, "a", some "S"⟩] : List FeedbackItem)[i]? = some fb →
      ∃ fields, ([.obj [], .str "x"] : List Json)[i]? = some (.obj fields) ∧
        ([.obj [("feedback_text", .str "a"), ("source", .str "S")], .str "x"] :
          List Json)[i]? = some (.obj (setProvenance fields fb))) ∧
    (∀ i, i < ([.obj [], .str "x"] : List Json).length →
      ([⟨some 1, "a", some "S"⟩] : List FeedbackItem)[i]? = none →
      ([.obj [("feedback_text", .str "a"), ("source", .str "S")], .str "x"] :
        List Json)[i]? = ([.obj [], .str "x"] : List Json)[i]?) :=
  claim3_amended [⟨some 1, "a", some "S"⟩] [.obj [], .str "x"]
    [.obj [("feedback_text", .str "a"), ("source", .str "S")], .str "x"] rfl

/-- Claim C4: a failing outcome (transport error, bad status, decode
error, or unexpected exception) for any one batch contributes exactly
zero records, leaves every other batch's contribution unchanged, and the
pipeline still returns the merged list (no exception escapes). -/
theorem claim4_failure_isolated (l : List FeedbackItem) (os : List Outcome)
    (j : Nat) (o : Outcome) (ho : o.isFailure = true) :
    contributions l (os.set j o) = (contributions l os).set j [] ∧
    processFeedbacks l (os.set j o) = ((contributions l os).set j []).flatten := by
  have h : contributions l (os.set j o) = (contributions l os).set j [] :=
    contributions_set_failure (chunksOf batchSize (normalize l)) os j o ho
  exact ⟨h, by rw [processFeedbacks_eq_flatten, h]⟩

/-- Witness for C4 at a concrete input. -/
theorem claim4_witness :
    contributions [⟨some 1, "a", some "S"⟩]
        ([Outcome.ok (.arr [.obj []])].set 0 .transportError) =
      (contributions [⟨some 1, "a", some "S"⟩]
        [Outcome.ok (.arr [.obj []])]).set 0 [] ∧
    processFeedbacks [⟨some 1, "a", some "S"⟩]
        ([Outcome.ok (.arr [.obj []])].set 0 .transportError) =
      ((contributions [⟨some 1, "a", some "S"⟩]
        [Outcome.ok (.arr [.obj []])]).set 0 []).flatten :=
  claim4_failure_isolated _ _ 0 .transportError rfl

/-- Claim C5: after normalization every item has an id; an item at
position `k` that lacked one receives the positional id `k + 1` (the
in-place mutation order makes `feedbacks.index` land on the item's own
position even when field values repeat), and backfilled ids at distinct
positions are distinct. -/
theorem claim5_ids_positional (l : List FeedbackItem) (k k' : Nat)
    (fb fb' : FeedbackItem) (hk : l[k]? = some fb) (hk' : l[k']? = some fb') :
    (normalize l)[k]? = some (normItem k fb) ∧
    (normItem k fb).id.isSome = true ∧
    (fb.id = none → (normItem k fb).id = some ((k : Int) + 1)) ∧
    (k ≠ k' → fb.id = none → fb'.id = none →
      (normItem k fb).id ≠ (normItem k' fb').id) := by
  refine ⟨?_, normItem_id_isSome k fb, ?_, ?_⟩
  · rw [normalize_getElem?, hk]; rfl
  · intro hid; simp [normItem, hid]
  · intro hkk hid hid'
    simp only [normItem, hid, hid', Option.isSome_none, Bool.false_eq_true,
      if_false, ne_eq, Option.some.injEq]
    intro he
    exact hkk (by omega)

/-- Witness for C5 on an input with two identical id-less items. -/
theorem claim5_witness :
    (normalize [⟨none, "dup", none⟩, ⟨none, "dup", none⟩])[0]? =
      some (normItem 0 ⟨none, "dup", none⟩) ∧
    (normItem 0 (⟨none, "dup", none⟩ : FeedbackItem)).id = some 1 ∧
    (normItem 0 (⟨none, "dup", none⟩ : FeedbackItem)).id ≠
      (normItem 1 (⟨none, "dup", none⟩ : FeedbackItem)).id :=
  have h := claim5_ids_positional [⟨none, "dup", none⟩, ⟨none, "dup", none⟩]
    0 1 ⟨none, "dup", none⟩ ⟨none, "dup", none⟩ rfl rfl
  ⟨h.1, h.2.2.1 rfl, h.2.2.2 (by decide) rfl rfl⟩

/-- Claim C6: a decoded response that is valid JSON but not an array
contributes zero records to the merged output: either the overwrite loop
raises `TypeError` and the coroutine returns `[]`, or the non-list value
is dropped by the merger's `isinstance(result, list)` check; in both
cases the run completes normally. -/
theorem claim6_nonarray_zero (b : List FeedbackItem) (v : Json)
    (h : v.isArr = false) : batchContribution b (.ok v) = [] :=
  batchContribution_ok_nonArr b v h

/-- Witness for C6 at a concrete non-array JSON value. -/
theorem claim6_witness :
    batchContribution [⟨some 1, "a", some "S"⟩]
      (.ok (.obj [("x", .null)])) = [] :=
  claim6_nonarray_zero [⟨some 1, "a", some "S"⟩] (.obj [("x", .null)]) rfl

/-- Claim C7: the entry point splits the normalized input into
consecutive, order-preserving, non-overlapping chunks (their
concatenation is exactly the normalized input), every chunk has at most
`batchSize = 20` items and every non-final chunk exactly 20; a 45-item
input yields exactly the chunk sizes 20, 20, 5. -/
theorem claim7_batching (l : List FeedbackItem) :
    (chunksOf batchSize (normalize l)).flatten = normalize l ∧
    (∀ i c, (chunksOf batchSize (normalize l))[i]? = some c →
      c.length ≤ batchSize ∧
      (i + 1 < (chunksOf batchSize (normalize l)).length →
        c.length = batchSize)) ∧
    (l.length = 45 →
      (chunksOf batchSize (normalize l)).map List.length = [20, 20, 5]) := by
  refine ⟨chunksOf_flatten (show 0 < batchSize by decide) _,
    fun i c hc => chunksOf_sizes (show 0 < batchSize by decide)
      (normalize l) i c hc,
    fun h45 => chunksOf_map_length_45 _ (by rw [normalize_length]; exact h45)⟩

/-- Witness for C7 on a concrete 45-item input. -/
theorem claim7_witness :
    (chunksOf batchSize
      (normalize (List.replicate 45 ⟨none, "a", none⟩))).map List.length =
      [20, 20, 5] :=
  (claim7_batching (List.replicate 45 ⟨none, "a", none⟩)).2.2 (by decide)

/-- Claim C8: an empty input produces an empty result list and an empty
batch list, hence zero tasks and zero network calls, whatever outcomes
the network could have produced. -/
theorem claim8_empty_input (os : List Outcome) :
    processFeedbacks [] os = [] ∧ chunksOf batchSize (normalize []) = [] :=
  ⟨rfl, rfl⟩

/-- Claim C9 is false on the code: normalization mutates the caller's
records in place — after the call, the item that lacked `id` and
`source` carries both. -/
theorem claim9_counterexample :
    normalize [⟨none, "a", none⟩] ≠ [⟨none, "a", none⟩] := by
  decide

/-- Claim C9 amended: the in-place backfill is the only mutation: an
input whose items all carry `id` and `source` already is left unchanged,
and `feedback_text` is never modified for any input. -/
theorem claim9_amended (l : List FeedbackItem) :
    ((∀ fb ∈ l, fb.id.isSome = true ∧ fb.source.isSome = true) →
      normalize l = l) ∧
    (∀ k : Nat, ((normalize l)[k]?).map FeedbackItem.feedback_text =
      (l[k]?).map FeedbackItem.feedback_text) := by
  constructor
  · intro h
    rw [normalize_eq_mapIdx]
    apply List.ext_getElem (by simp)
    intro n h1 h2
    rw [List.getElem_mapIdx]
    obtain ⟨hid, hsrc⟩ := h l[n] (List.getElem_mem h2)
    rcases hfb : l[n] with ⟨i0, t0, s0⟩
    rw [hfb] at hid hsrc
    cases i0 with
    | none => simp at hid
    | some iv =>
        cases s0 with
        | none => simp at hsrc
        | some sv => simp [normItem]
  · intro k
    rw [normalize_getElem?]
    cases l[k]? with
    | none => rfl
    | some fb => rfl

/-- Witness for the amended C9 on a complete input item. -/
theorem claim9_witness :
    normalize [⟨some 1, "a", some "S"⟩] = [⟨some 1, "a", some "S"⟩] :=
  (claim9_amended [⟨some 1, "a", some "S"⟩]).1 (by decide)

/-- Claim C10: in every state the scheduler can reach during a run, at
most `maxConcurrent = 5` batch tasks have an outstanding network call:
every task with an outstanding call holds a semaphore slot, and the
acquire rule keeps held slots at or below the ceiling. -/
theorem claim10_concurrency_cap (l : List FeedbackItem) (s : List Phase)
    (h : SemReach (initialTasks l) s) :
    callsOutstanding s ≤ maxConcurrent :=
  Nat.le_trans (callsOutstanding_le_slotsHeld s)
    (slotsHeld_le_of_reach _ (slotsHeld_replicate_pending _) s h)

/-- Witness for C10: a run on one batch after its task acquires the
semaphore and starts its call. -/
theorem claim10_witness :
    callsOutstanding ((initialTasks [⟨some 1, "a", some "S"⟩]).set 0
      .calling) ≤ maxConcurrent :=
  claim10_concurrency_cap _ _
    (SemReach.step SemReach.refl (SemStep.acquire _ 0 rfl (by decide)))

end FeedbackPrioritizer
